import Mathlib

/-!
Verification development for the Google Play app-id fetch pipeline
(source: src/main.py).  The Python source is shallowly embedded:

* the filesystem cache directory is an association list from filename to
  file content (`Cache`), and the single output file is an `Option String`;
* network access, gzip decompression and XML parsing are oracles collected
  in a `NetEnv` record: each is an arbitrary function supplied from outside,
  since their outcome depends on the outside world, not on the program;
* CPython set iteration order is unspecified, so the `set(...)` built on
  line 39 of the source is embedded as an oracle `setElems` together with
  the predicate `SetElemsOK` stating the properties every CPython set
  enumeration has (no duplicates, same membership);
* `urllib.parse.urlparse`, `urllib.parse.parse_qs` and `os.path.basename`
  are embedded directly, following the CPython implementations, operating
  on `List Char` (Python strings are sequences of code points).
-/

/-! ## Character-list utilities (Python string primitives) -/

/-- Split a character list at the first occurrence of `c`; `none` when `c`
does not occur.  Mirrors Python's `str.split(c, 1)` / `str.find(c)`. -/
def splitFirst (c : Char) : List Char → Option (List Char × List Char)
  | [] => none
  | x :: xs =>
    if x = c then some ([], xs)
    else (splitFirst c xs).map (fun p => (x :: p.1, p.2))

/-- Split a character list at the last occurrence of `c`; `none` when `c`
does not occur.  Mirrors Python's `str.rfind(c)` based splitting. -/
def splitLast (c : Char) (l : List Char) : Option (List Char × List Char) :=
  match splitFirst c l.reverse with
  | none => none
  | some (a, b) => some (b.reverse, a.reverse)

/-- Python's `str.split(c)` (all occurrences, keeping empty parts). -/
def splitOnChar (c : Char) : List Char → List (List Char)
  | [] => [[]]
  | x :: xs =>
    let r := splitOnChar c xs
    if x = c then [] :: r
    else
      match r with
      | [] => [[x]]
      | h :: t => (x :: h) :: t

/-- Python's `str.startswith`, on code points (`s[:len(p)] == p`). -/
def pyStartsWith (s p : String) : Bool :=
  s.data.take p.data.length == p.data

/-- Python's `str.endswith`, on code points. -/
def pyEndsWith (s p : String) : Bool :=
  s.data.drop (s.data.length - p.data.length) == p.data

/-- Python's slice `s[:-n]`, on code points. -/
def pyDropRight (s : String) (n : Nat) : String :=
  String.mk (s.data.take (s.data.length - n))

/-! ## urllib.parse.urlparse (CPython `urllib/parse.py`) -/

/-- The result record of `urllib.parse.urlparse` (components as code-point
lists; Python returns a 6-tuple of strings). -/
structure URLParts where
  scheme : List Char
  netloc : List Char
  path : List Char
  params : List Char
  query : List Char
  fragment : List Char
deriving Repr, DecidableEq

/-- CPython `scheme_chars`: characters allowed in a URL scheme. -/
def isSchemeChar (ch : Char) : Bool :=
  ch.isAlphanum || ch = '+' || ch = '-' || ch = '.'

/-- The scheme-splitting step of CPython `urlsplit`: if the text before the
first `:` is a valid scheme (nonempty, starts with a letter, all scheme
chars), return it lowercased together with the rest, else no scheme. -/
def splitScheme (url : List Char) : List Char × List Char :=
  match splitFirst ':' url with
  | none => ([], url)
  | some (before, after) =>
    match before with
    | [] => ([], url)
    | b :: bs =>
      if b.isAlpha && (b :: bs).all isSchemeChar then
        ((b :: bs).map Char.toLower, after)
      else ([], url)

/-- CPython `_splitnetloc`: the netloc extends to the first `/`, `?` or `#`. -/
def splitNetloc (l : List Char) : List Char × List Char :=
  l.span (fun ch => !(ch = '/' || ch = '?' || ch = '#'))

/-- CPython `_splitparams`: split parameters (after `;`) off the last path
segment. -/
def splitParams (l : List Char) : List Char × List Char :=
  match splitLast '/' l with
  | some (before, after) =>
    match splitFirst ';' after with
    | some (a, b) => (before ++ '/' :: a, b)
    | none => (l, [])
  | none =>
    match splitFirst ';' l with
    | some (a, b) => (a, b)
    | none => (l, [])

/-- CPython `urlsplit` (modern CPython; the tab/CR/LF removal and the
first-char-alphabetic scheme check follow current `urllib/parse.py`; the
rarely-hit bracketed-host validation errors are not modelled as no claim
depends on them). -/
def urlsplitCL (url0 : List Char) : URLParts :=
  let url1 := url0.filter (fun ch => !(ch = '\t' || ch = '\r' || ch = '\n'))
  let (scheme, url2) := splitScheme url1
  let (netloc, url3) :=
    if url2.take 2 = ['/', '/'] then splitNetloc (url2.drop 2) else ([], url2)
  let (url4, fragment) :=
    match splitFirst '#' url3 with
    | some (a, b) => (a, b)
    | none => (url3, [])
  let (path, query) :=
    match splitFirst '?' url4 with
    | some (a, b) => (a, b)
    | none => (url4, [])
  ⟨scheme, netloc, path, [], query, fragment⟩

/-- CPython `uses_params`: schemes for which `urlparse` splits `;params`. -/
def usesParams : List (List Char) :=
  ["", "ftp", "hdl", "prospero", "http", "imap", "https", "imaps", "rtsp",
   "rtspu", "sip", "sips", "mms", "sftp", "tel"].map String.data

/-- Model of `urllib.parse.urlparse` on a Python string. -/
def urlparse (s : String) : URLParts :=
  let u := urlsplitCL s.data
  if usesParams.contains u.scheme && u.path.contains ';' then
    let (path, params) := splitParams u.path
    { u with path := path, params := params }
  else u

/-- Model of `os.path.basename` (POSIX): everything after the last `/`. -/
def osBasename (p : List Char) : List Char :=
  match splitLast '/' p with
  | some (_, after) => after
  | none => p

/-- Source `get_url_file_name` (src/main.py line 28):
`os.path.basename(urlparse(url).path)`. -/
def get_url_file_name (url : String) : String :=
  String.mk (osBasename (urlparse url).path)

/-! ## urllib.parse.parse_qs -/

/-- Hex digit value, as accepted by CPython `unquote` (`_hexdig`). -/
def hexVal (ch : Char) : Option Nat :=
  if '0' ≤ ch ∧ ch ≤ '9' then some (ch.toNat - '0'.toNat)
  else if 'a' ≤ ch ∧ ch ≤ 'f' then some (ch.toNat - 'a'.toNat + 10)
  else if 'A' ≤ ch ∧ ch ≤ 'F' then some (ch.toNat - 'A'.toNat + 10)
  else none

/-- CPython `unquote`: decode `%XX` escapes; an invalid escape is kept
literally.  Modelled at the code-point level (a decoded byte becomes the
code point of the same value; CPython additionally UTF-8-decodes runs of
decoded bytes, which coincides with this model on ASCII data and is
irrelevant to every claim below). -/
def unquoteCL : List Char → List Char
  | '%' :: a :: b :: rest =>
    match hexVal a, hexVal b with
    | some ha, some hb => Char.ofNat (16 * ha + hb) :: unquoteCL rest
    | _, _ => '%' :: unquoteCL (a :: b :: rest)
  | x :: rest => x :: unquoteCL rest
  | [] => []

/-- CPython `unquote_plus` step used by `parse_qsl`: `+` means space. -/
def plusToSpace (l : List Char) : List Char :=
  l.map (fun ch => if ch = '+' then ' ' else ch)

/-- Step `nv[0].replace('+', ' ')` followed by `unquote`, as in `parse_qsl`. -/
def unquotePlus (l : List Char) : List Char :=
  unquoteCL (plusToSpace l)

/-- CPython `parse_qsl` with the default arguments used by the source
(`keep_blank_values=False`, `strict_parsing=False`, separator `&`):
fields without `=` or with an empty value are skipped. -/
def parse_qsl (qs : List Char) : List (List Char × List Char) :=
  if qs = [] then []
  else
    (splitOnChar '&' qs).filterMap (fun nv =>
      if nv = [] then none
      else
        match splitFirst '=' nv with
        | none => none
        | some (n, v) =>
          if v = [] then none
          else some (unquotePlus n, unquotePlus v))

/-- Insertion into the `parse_qs` result dict: append to an existing key's
value list, else add the key at the end (CPython dicts keep insertion
order). -/
def qsInsert (d : List (List Char × List (List Char))) (k v : List Char) :
    List (List Char × List (List Char)) :=
  match d with
  | [] => [(k, [v])]
  | (k', vs) :: rest =>
    if k' = k then (k', vs ++ [v]) :: rest else (k', vs) :: qsInsert rest k v

/-- CPython `parse_qs`: group `parse_qsl` pairs by key. -/
def parse_qs (qs : List Char) : List (List Char × List (List Char)) :=
  (parse_qsl qs).foldl (fun d p => qsInsert d p.1 p.2) []

/-- Dictionary lookup `d[k]` on the `parse_qs` result (`none` models the
`KeyError` raised when the key is absent). -/
def qsLookup (d : List (List Char × List (List Char))) (k : List Char) :
    Option (List (List Char)) :=
  match d with
  | [] => none
  | (k', vs) :: rest => if k' = k then some vs else qsLookup rest k

/-! ## XML trees (the shape `lxml.etree` exposes to the source) -/

/-- An XML element as used by the source: an attribute list and children.
`etree.fromstring` producing such a tree (or failing) is an oracle in
`NetEnv`; only the traversal and attribute access are modelled here. -/
inductive XElem where
  | node (attrib : List (String × String)) (children : List XElem)
deriving Repr

/-- The attribute list of an element. -/
def XElem.attrib : XElem → List (String × String)
  | .node a _ => a

/-- First-match association-list lookup (used both for XML attributes and
for the cache directory). -/
def alookup {β : Type} : List (String × β) → String → Option β
  | [], _ => none
  | (k, v) :: rest, n => if k = n then some v else alookup rest n

mutual
/-- Model of lxml `element.iter()`: the element itself followed by all
descendants, in document order (preorder). -/
def XElem.iterList : XElem → List XElem
  | .node a cs => .node a cs :: iterListAll cs

/-- Preorder traversal of a forest of elements. -/
def iterListAll : List XElem → List XElem
  | [] => []
  | e :: es => XElem.iterList e ++ iterListAll es
end

/-- Line 39 of the source, before the `set(...)` constructor: the `href`
attribute of every element of `tree.iter()` that has one, in document
order. -/
def treeHrefs (t : XElem) : List String :=
  t.iterList.filterMap (fun e => alookup e.attrib "href")

/-! ## The cache directory -/

/-- The cache directory (`app_ids_dir`): an association of filename to file
content.  Filenames are relative to the directory, so `os.path.join` with
the fixed directory path disappears from the model. -/
abbrev Cache := List (String × String)

/-- Model of `os.remove` preceded by the `os.path.isfile` check (lines 45-46):
drop the entry when present, identity when absent. -/
def removeFile : Cache → String → Cache
  | [], _ => []
  | (k, v) :: rest, n =>
    if k = n then removeFile rest n else (k, v) :: removeFile rest n

/-- Model of `open(path, "w")` + `writelines`: create or overwrite the file. -/
def writeFile (c : Cache) (n s : String) : Cache :=
  (n, s) :: removeFile c n

/-! ## ShardFetcher: fetch_app_ids_task (src/main.py lines 33-47) -/

/-- The outside world as the source observes it.  `urlopenRead` is
`urllib.request.urlopen(url)` + `response.read()` (`none` = any network
error), `gzipDecompress` is `gzip.decompress` (`none` = raise),
`etreeFromstring` is `etree.fromstring` (`none` = parse error),
`setElems` is the enumeration CPython's `set` constructor + iteration
applies to a list of strings (its order is unspecified), and `persistOk`
tells whether writing the record file for a URL succeeds (`False` = an
`OSError` from `open`/`writelines`, e.g. disk full). -/
structure NetEnv where
  urlopenRead : String → Option (List Nat)
  gzipDecompress : List Nat → Option (List Nat)
  etreeFromstring : List Nat → Option XElem
  setElems : List String → List String
  persistOk : String → Bool

/-- What every CPython set enumeration of a string list satisfies:
no duplicates, and exactly the elements of the original list. -/
def SetElemsOK (f : List String → List String) : Prop :=
  ∀ l, (f l).Nodup ∧ ∀ x, x ∈ f l ↔ x ∈ l

/-- Expression `parse_qs(urlparse(i).query)["id"][0]` for one hyperlink (line 40);
`none` models the `KeyError` when the `id` parameter is absent. -/
def extract_app_id (i : String) : Option String :=
  match qsLookup (parse_qs (urlparse i).query) "id".data with
  | none => none
  | some vs => vs.head?.map String.mk

/-- The list comprehension of line 40: keep the hyperlinks with the store
prefix and extract each one's `id`; the first missing `id` aborts the
whole comprehension (`none`). -/
def extractAll : List String → Option (List String)
  | [] => some []
  | i :: rest =>
    if pyStartsWith i "https://play.google.com/store/apps" then
      match extract_app_id i with
      | none => none
      | some v =>
        match extractAll rest with
        | none => none
        | some vs => some (v :: vs)
    else extractAll rest

/-- Lines 36-40 of the source (`try` body up to the extraction): download,
decompress, parse, take the `set` of hyperlinks, extract the ids.  `none`
is the exception falling through to `except`. -/
def taskAttempt (env : NetEnv) (url : String) : Option (List String) :=
  match env.urlopenRead url with
  | none => none
  | some raw =>
    match env.gzipDecompress raw with
    | none => none
    | some content =>
      match env.etreeFromstring content with
      | none => none
      | some tree => extractAll (env.setElems (treeHrefs tree))

/-- Source `fetch_app_ids_task(url, app_ids_dir)` (lines 33-47).  Any exception in
the `try` body falls into the `except` branch, which removes the target
file if present and returns `False`.  On success the extracted ids are
written one per line. -/
def fetch_app_ids_task (env : NetEnv) (url : String) (cache : Cache) :
    Bool × Cache :=
  let output_name := get_url_file_name url ++ ".txt"
  match taskAttempt env url with
  | some app_ids =>
    if env.persistOk url then
      (true, writeFile cache output_name
        (String.join (app_ids.map (fun i => i ++ "\n"))))
    else (false, removeFile cache output_name)
  | none => (false, removeFile cache output_name)

/-! ## FetchScheduler: run_fetch_app_ids_tasks (lines 50-65) -/

/-- Source `run_fetch_app_ids_tasks`: run every task, collect every outcome.
The process pool's tasks write disjoint-by-name files and are gathered in
dispatch order by `asyncio.gather`, so the batch is embedded as the
sequential threading of the cache through the tasks; `task_results` is the
second component (line 59), from which line 60 takes
`task_results.count(False)`. -/
def run_fetch_app_ids_tasks (env : NetEnv) (urls : List String)
    (cache : Cache) : Cache × List Bool :=
  match urls with
  | [] => (cache, [])
  | u :: rest =>
    let r := fetch_app_ids_task env u cache
    let rr := run_fetch_app_ids_tasks env rest r.2
    (rr.1, r.1 :: rr.2)

/-! ## ResumeIndex and ResultAggregator (lines 68-74 and 90-101) -/

/-- The filename filter shared by lines 69 and 92:
`not i.startswith(".") and i.endswith(".txt")`. -/
def recordPred (i : String) : Bool :=
  !(pyStartsWith i ".") && pyEndsWith i ".txt"

/-- Line 92: the set of completed shard keys,
`set(i[:-len(".txt")] for listed i passing the filter)` (membership is all
that is consumed, so a list with possible duplicates embeds the set). -/
def recordNames (cache : Cache) : List String :=
  ((cache.map Prod.fst).filter recordPred).map (fun i => pyDropRight i 4)

/-- Line 93: the URLs whose key has no record yet.  The source guards this
with `os.path.isdir(app_ids_dir)`; the directory is created by `main`
before the run, so the model always has a directory (possibly empty). -/
def pendingURLs (urls : List String) (cache : Cache) : List String :=
  urls.filter (fun i => !(recordNames cache).contains (get_url_file_name i))

/-- Lexicographic comparison of code-point lists (Python string `<=`). -/
def dataLe : List Char → List Char → Bool
  | [], _ => true
  | _ :: _, [] => false
  | a :: as, b :: bs =>
    if a < b then true else if b < a then false else dataLe as bs

/-- Python string comparison `a <= b` (lexicographic by code point), as
used by `sorted`. -/
def strLeB (a b : String) : Bool := dataLe a.data b.data

/-- Python `sorted` on strings. -/
def sortStrings (l : List String) : List String :=
  List.insertionSort (fun a b => strLeB a b = true) l

/-- Source `concat_all_app_ids` (lines 68-74) as the content it writes: list the
record files, sort by name, concatenate contents in that order.  The
source sorts the joined paths `app_ids_dir + "/" + name`; with the fixed
common prefix that order is the order of the names themselves. -/
def concat_all_app_ids (cache : Cache) : String :=
  let files := sortStrings ((cache.map Prod.fst).filter recordPred)
  String.join (files.map (fun f => (alookup cache f).getD ""))

/-- The on-disk content of `app_ids_path` when `concat_all_app_ids` is
interrupted after writing `k` of the record files: `aiofiles.open(path,
"w")` creates/truncates the output immediately, and the loop of lines
72-74 appends one record file per iteration, so an I/O failure at the
`(k+1)`-th file leaves the concatenation of the first `k`. -/
def concatTruncated (cache : Cache) (k : Nat) : String :=
  let files := sortStrings ((cache.map Prod.fst).filter recordPred)
  String.join ((files.take k).map (fun f => (alookup cache f).getD ""))

/-- Lines 99-101: write the merged output only when `app_ids_path` is not
already a file. -/
def mergeOutput (cache : Cache) (output : Option String) : Option String :=
  match output with
  | some s => some s
  | none => some (concat_all_app_ids cache)

/-- Observable result of one `fetch_app_ids` run (lines 90-101). -/
structure RunState where
  cache : Cache
  output : Option String
  dispatched : List String
  results : List Bool

/-- Source `fetch_app_ids` restricted to its core (lines 90-101): prune the URL
set by the completed records, dispatch the sorted pending URLs when there
are any, then merge unless the output file already exists.  (Lines 77-88,
the SitemapIndexResolver collaborator, supply `urls` and are outside the
spec's core.) -/
def fetch_app_ids (env : NetEnv) (urls : List String) (cache : Cache)
    (output : Option String) : RunState :=
  let pending := pendingURLs urls cache
  let disp := if pending.length > 0 then sortStrings pending else []
  let run :=
    if pending.length > 0 then
      run_fetch_app_ids_tasks env (sortStrings pending) cache
    else (cache, [])
  { cache := run.1
    output := mergeOutput run.1 output
    dispatched := disp
    results := run.2 }

/-- The claim C5 notion of extraction order: the identifiers of the
store-prefixed hyperlinks in the order the hyperlinks occur in the shard's
XML (document order, duplicates included). -/
def extractionOrderIds (t : XElem) : List String :=
  ((treeHrefs t).filter
    (fun i => pyStartsWith i "https://play.google.com/store/apps")).filterMap
    extract_app_id

/-! ## Helper lemmas: the cache as an association list -/

theorem alookup_removeFile_self (c : Cache) (n : String) :
    alookup (removeFile c n) n = none := by
  induction c with
  | nil => rfl
  | cons p rest ih =>
    obtain ⟨k, v⟩ := p
    by_cases h : k = n
    · simpa [removeFile, h] using ih
    · simp [removeFile, alookup, h, ih]

theorem alookup_removeFile_other (c : Cache) (n m : String) (h : m ≠ n) :
    alookup (removeFile c n) m = alookup c m := by
  induction c with
  | nil => rfl
  | cons p rest ih =>
    obtain ⟨k, v⟩ := p
    by_cases hk : k = n
    · subst hk
      simp [removeFile, alookup, Ne.symm h, ih]
    · by_cases hm : k = m <;> simp [removeFile, alookup, hk, hm, h, ih]

theorem alookup_writeFile_self (c : Cache) (n s : String) :
    alookup (writeFile c n s) n = some s := by
  simp [writeFile, alookup]

theorem alookup_writeFile_other (c : Cache) (n s m : String) (h : m ≠ n) :
    alookup (writeFile c n s) m = alookup c m := by
  simp [writeFile, alookup, Ne.symm h, alookup_removeFile_other c n m h]

theorem alookup_isSome_iff (c : Cache) (n : String) :
    (alookup c n).isSome ↔ n ∈ c.map Prod.fst := by
  induction c with
  | nil => simp [alookup]
  | cons p rest ih =>
    obtain ⟨k, v⟩ := p
    by_cases h : k = n
    · simp [alookup, h]
    · simp [alookup, h, ih, Ne.symm h]

theorem alookup_eq_none_iff (c : Cache) (n : String) :
    alookup c n = none ↔ n ∉ c.map Prod.fst := by
  rw [← alookup_isSome_iff, Option.not_isSome_iff_eq_none]

theorem alookup_writeFile_isSome (c : Cache) (n s m : String)
    (h : (alookup c m).isSome) : (alookup (writeFile c n s) m).isSome := by
  by_cases hm : m = n
  · subst hm; simp [alookup_writeFile_self]
  · rw [alookup_writeFile_other c n s m hm]; exact h

theorem mem_of_alookup_eq_some {c : Cache} {n v : String}
    (h : alookup c n = some v) : (n, v) ∈ c := by
  induction c with
  | nil => simp [alookup] at h
  | cons p rest ih =>
    obtain ⟨k, w⟩ := p
    by_cases hk : k = n
    · subst hk
      simp [alookup] at h
      simp [h]
    · simp [alookup, hk] at h
      simp [ih h]

theorem alookup_eq_some_of_mem_nodup {c : Cache} {n v : String}
    (hnd : (c.map Prod.fst).Nodup) (h : (n, v) ∈ c) : alookup c n = some v := by
  induction c with
  | nil => simp at h
  | cons p rest ih =>
    obtain ⟨k, w⟩ := p
    simp only [List.map_cons, List.nodup_cons] at hnd
    rcases List.mem_cons.mp h with h1 | h1
    · cases h1
      simp [alookup]
    · have hk : k ≠ n := by
        intro hkn
        subst hkn
        exact hnd.1 (List.mem_map.mpr ⟨(k, v), h1, rfl⟩)
      simp [alookup, hk, ih hnd.2 h1]

theorem alookup_perm {c1 c2 : Cache} (hp : c1.Perm c2)
    (hnd : (c1.map Prod.fst).Nodup) (n : String) :
    alookup c1 n = alookup c2 n := by
  cases h : alookup c1 n with
  | none =>
    have h1 : n ∉ c1.map Prod.fst := (alookup_eq_none_iff c1 n).mp h
    have h2 : n ∉ c2.map Prod.fst := fun hm =>
      h1 ((hp.map Prod.fst).mem_iff.mpr hm)
    exact ((alookup_eq_none_iff c2 n).mpr h2).symm
  | some v =>
    have h1 : (n, v) ∈ c2 := hp.mem_iff.mp (mem_of_alookup_eq_some h)
    have hnd2 : (c2.map Prod.fst).Nodup := (hp.map Prod.fst).nodup_iff.mp hnd
    exact (alookup_eq_some_of_mem_nodup hnd2 h1).symm

theorem alookup_append_middle (c1 c2 : Cache) (nm content m : String)
    (h : m ≠ nm) :
    alookup (c1 ++ (nm, content) :: c2) m = alookup (c1 ++ c2) m := by
  induction c1 with
  | nil => simp [alookup, Ne.symm h]
  | cons p rest ih =>
    obtain ⟨k, v⟩ := p
    by_cases hk : k = m <;> simp [alookup, hk, ih]

/-! ## Helper lemmas: Python string primitives -/

theorem string_mk_data (s : String) : String.mk s.data = s := by
  cases s; rfl

theorem pyDropRight_append_txt (s : String) : pyDropRight (s ++ ".txt") 4 = s := by
  have hd : (s ++ ".txt").data = s.data ++ ['.', 't', 'x', 't'] := by
    simp [String.data_append]
  simp only [pyDropRight, hd, List.length_append, List.length_cons,
    List.length_nil, Nat.add_sub_cancel]
  have := List.take_left s.data ['.', 't', 'x', 't']
  rw [this, string_mk_data]

theorem pyEndsWith_append_txt (s : String) :
    pyEndsWith (s ++ ".txt") ".txt" = true := by
  have hd : (s ++ ".txt").data = s.data ++ ['.', 't', 'x', 't'] := by
    simp [String.data_append]
  simp only [pyEndsWith, hd, List.length_append, List.length_cons,
    List.length_nil, Nat.add_sub_cancel]
  rw [List.drop_left]
  decide

/-! ## Helper lemmas: sorting -/

theorem dataLe_cons_iff {a b : Char} {as bs : List Char} :
    dataLe (a :: as) (b :: bs) = true ↔
      a < b ∨ (a = b ∧ dataLe as bs = true) := by
  by_cases h1 : a < b
  · simp [dataLe, h1]
  · by_cases h2 : b < a
    · have hne : ¬ a = b := fun he => absurd (he ▸ h2) (lt_irrefl a)
      simp [dataLe, h1, h2, hne]
    · have heq : a = b := le_antisymm (not_lt.mp h2) (not_lt.mp h1)
      simp [dataLe, h1, h2, heq]

theorem dataLe_total : ∀ x y : List Char, dataLe x y = true ∨ dataLe y x = true := by
  intro x
  induction x with
  | nil => intro y; exact Or.inl rfl
  | cons a as ih =>
    intro y
    cases y with
    | nil => exact Or.inr rfl
    | cons b bs =>
      rcases lt_trichotomy a b with h | h | h
      · exact Or.inl (dataLe_cons_iff.mpr (Or.inl h))
      · rcases ih bs with h2 | h2
        · exact Or.inl (dataLe_cons_iff.mpr (Or.inr ⟨h, h2⟩))
        · exact Or.inr (dataLe_cons_iff.mpr (Or.inr ⟨h.symm, h2⟩))
      · exact Or.inr (dataLe_cons_iff.mpr (Or.inl h))

theorem dataLe_trans : ∀ {x y z : List Char},
    dataLe x y = true → dataLe y z = true → dataLe x z = true := by
  intro x
  induction x with
  | nil => intro y z _ _; rfl
  | cons a as ih =>
    intro y z h1 h2
    cases y with
    | nil => simp [dataLe] at h1
    | cons b bs =>
      cases z with
      | nil => simp [dataLe] at h2
      | cons c cs =>
        rcases dataLe_cons_iff.mp h1 with hab | ⟨hab, hr1⟩ <;>
          rcases dataLe_cons_iff.mp h2 with hbc | ⟨hbc, hr2⟩
        · exact dataLe_cons_iff.mpr (Or.inl (lt_trans hab hbc))
        · exact dataLe_cons_iff.mpr (Or.inl (hbc ▸ hab))
        · exact dataLe_cons_iff.mpr (Or.inl (hab ▸ hbc))
        · exact dataLe_cons_iff.mpr (Or.inr ⟨hab.trans hbc, ih hr1 hr2⟩)

theorem dataLe_antisymm : ∀ {x y : List Char},
    dataLe x y = true → dataLe y x = true → x = y := by
  intro x
  induction x with
  | nil =>
    intro y h1 h2
    cases y with
    | nil => rfl
    | cons b bs => simp [dataLe] at h2
  | cons a as ih =>
    intro y h1 h2
    cases y with
    | nil => simp [dataLe] at h1
    | cons b bs =>
      rcases dataLe_cons_iff.mp h1 with hab | ⟨hab, hr1⟩ <;>
        rcases dataLe_cons_iff.mp h2 with hba | ⟨hba, hr2⟩
      · exact absurd hba (lt_asymm hab)
      · exact absurd (hba ▸ hab) (lt_irrefl b)
      · exact absurd (hab ▸ hba) (lt_irrefl b)
      · rw [hab, ih hr1 hr2]

theorem strLeB_total (a b : String) : strLeB a b = true ∨ strLeB b a = true :=
  dataLe_total a.data b.data

theorem strLeB_trans {a b c : String} (h1 : strLeB a b = true)
    (h2 : strLeB b c = true) : strLeB a c = true :=
  dataLe_trans h1 h2

theorem strLeB_antisymm {a b : String} (h1 : strLeB a b = true)
    (h2 : strLeB b a = true) : a = b :=
  String.ext (dataLe_antisymm h1 h2)

instance : IsTotal String (fun a b => strLeB a b = true) :=
  ⟨strLeB_total⟩

instance : IsTrans String (fun a b => strLeB a b = true) :=
  ⟨fun _ _ _ => strLeB_trans⟩

instance : IsAntisymm String (fun a b => strLeB a b = true) :=
  ⟨fun _ _ => strLeB_antisymm⟩

theorem sortStrings_perm (l : List String) : (sortStrings l).Perm l :=
  List.perm_insertionSort _ l

theorem sortStrings_sorted (l : List String) :
    List.Sorted (fun a b => strLeB a b = true) (sortStrings l) :=
  List.sorted_insertionSort _ l

theorem sortStrings_eq_of_perm {l₁ l₂ : List String} (h : l₁.Perm l₂) :
    sortStrings l₁ = sortStrings l₂ :=
  List.eq_of_perm_of_sorted
    ((sortStrings_perm l₁).trans (h.trans (sortStrings_perm l₂).symm))
    (sortStrings_sorted l₁) (sortStrings_sorted l₂)

/-! ## Helper lemmas: the fetch task and the batch runner -/

theorem fetch_task_false_eq (env : NetEnv) (url : String) (cache : Cache)
    (h : (fetch_app_ids_task env url cache).1 = false) :
    (fetch_app_ids_task env url cache).2 =
      removeFile cache (get_url_file_name url ++ ".txt") := by
  unfold fetch_app_ids_task at *
  cases ha : taskAttempt env url with
  | none => simp [ha]
  | some ids =>
    cases hp : env.persistOk url with
    | false => simp [ha, hp]
    | true => simp [ha, hp] at h

theorem fetch_task_true_eq (env : NetEnv) (url : String) (cache : Cache)
    (h : (fetch_app_ids_task env url cache).1 = true) :
    ∃ ids : List String,
      taskAttempt env url = some ids ∧ env.persistOk url = true ∧
      (fetch_app_ids_task env url cache).2 =
        writeFile cache (get_url_file_name url ++ ".txt")
          (String.join (ids.map (fun i => i ++ "\n"))) := by
  unfold fetch_app_ids_task at *
  cases ha : taskAttempt env url with
  | none => simp [ha] at h
  | some ids =>
    cases hp : env.persistOk url with
    | false => simp [ha, hp] at h
    | true => exact ⟨ids, rfl, rfl, by simp [ha, hp]⟩

theorem run_length (env : NetEnv) (urls : List String) (cache : Cache) :
    (run_fetch_app_ids_tasks env urls cache).2.length = urls.length := by
  induction urls generalizing cache with
  | nil => rfl
  | cons u rest ih => simp [run_fetch_app_ids_tasks, ih]

theorem count_true_add_count_false (l : List Bool) :
    l.count true + l.count false = l.length := by
  induction l with
  | nil => rfl
  | cons b t ih => cases b <;> simp [List.count_cons, ih] <;> omega

theorem run_preserves_isSome (env : NetEnv) (urls : List String)
    (cache : Cache) (n : String)
    (h2 : ∀ b ∈ (run_fetch_app_ids_tasks env urls cache).2, b = true)
    (h : (alookup cache n).isSome) :
    (alookup (run_fetch_app_ids_tasks env urls cache).1 n).isSome := by
  induction urls generalizing cache with
  | nil => exact h
  | cons u rest ih =>
    simp only [run_fetch_app_ids_tasks] at h2 ⊢
    have hu : (fetch_app_ids_task env u cache).1 = true := by
      exact h2 _ (List.mem_cons_self _ _)
    obtain ⟨ids, -, -, heq⟩ := fetch_task_true_eq env u cache hu
    refine ih _ (fun b hb => h2 b (List.mem_cons_of_mem _ hb)) ?_
    rw [heq]
    exact alookup_writeFile_isSome _ _ _ _ h

theorem run_writes_all (env : NetEnv) (urls : List String) (cache : Cache)
    (h2 : ∀ b ∈ (run_fetch_app_ids_tasks env urls cache).2, b = true) :
    ∀ u ∈ urls,
      (alookup (run_fetch_app_ids_tasks env urls cache).1
        (get_url_file_name u ++ ".txt")).isSome := by
  induction urls generalizing cache with
  | nil => intro u hu; simp at hu
  | cons w rest ih =>
    intro u hu
    simp only [run_fetch_app_ids_tasks] at h2 ⊢
    have hw : (fetch_app_ids_task env w cache).1 = true :=
      h2 _ (List.mem_cons_self _ _)
    obtain ⟨ids, -, -, heq⟩ := fetch_task_true_eq env w cache hw
    have h2' : ∀ b ∈ (run_fetch_app_ids_tasks env rest
        (fetch_app_ids_task env w cache).2).2, b = true :=
      fun b hb => h2 b (List.mem_cons_of_mem _ hb)
    rcases List.mem_cons.mp hu with h1 | h1
    · subst h1
      refine run_preserves_isSome env rest _ _ h2' ?_
      rw [heq]
      simp [alookup_writeFile_self]
    · exact ih _ h2' u h1

/-! ## Helper lemmas: extraction -/

theorem extractAll_eq_none_of_mem {l : List String} {x : String} (hx : x ∈ l)
    (hpre : pyStartsWith x "https://play.google.com/store/apps" = true)
    (hid : extract_app_id x = none) : extractAll l = none := by
  induction l with
  | nil => simp at hx
  | cons i rest ih =>
    rcases List.mem_cons.mp hx with h1 | h1
    · subst h1
      simp [extractAll, hpre, hid]
    · by_cases hp : pyStartsWith i "https://play.google.com/store/apps" = true
      · cases hi : extract_app_id i with
        | none => simp [extractAll, hp, hi]
        | some v => simp [extractAll, hp, hi, ih h1]
      · simp only [extractAll, Bool.not_eq_true] at hp ⊢
        simp [hp, ih h1]

/-! ## Helper lemmas: splitting specifications (for the resolver claims) -/

theorem splitFirst_eq_none {c : Char} {l : List Char}
    (h : splitFirst c l = none) : c ∉ l := by
  induction l with
  | nil => simp
  | cons x xs ih =>
    simp only [splitFirst] at h
    by_cases hx : x = c
    · simp [hx] at h
    · simp only [hx, if_false, Option.map_eq_none'] at h
      intro hm
      rcases List.mem_cons.mp hm with he | hm2
      · exact hx he.symm
      · exact ih h hm2

theorem splitFirst_eq_some {c : Char} :
    ∀ {l a b : List Char}, splitFirst c l = some (a, b) →
      l = a ++ c :: b ∧ c ∉ a := by
  intro l
  induction l with
  | nil => intro a b h; simp [splitFirst] at h
  | cons x xs ih =>
    intro a b h
    simp only [splitFirst] at h
    by_cases hx : x = c
    · simp only [hx, if_true] at h
      obtain ⟨rfl, rfl⟩ := Prod.mk.injEq .. ▸ (Option.some.injEq .. ▸ h)
      simp [hx]
    · simp only [hx, if_false, Option.map_eq_some'] at h
      obtain ⟨⟨a', b'⟩, hab, heq⟩ := h
      obtain ⟨hl, hc⟩ := ih hab
      obtain ⟨rfl, rfl⟩ := Prod.mk.injEq .. ▸ heq
      refine ⟨by simp [hl], ?_⟩
      intro hm
      rcases List.mem_cons.mp hm with he | hm2
      · exact hx he.symm
      · exact hc hm2

theorem splitLast_eq_none {c : Char} {l : List Char}
    (h : splitLast c l = none) : c ∉ l := by
  unfold splitLast at h
  cases hf : splitFirst c l.reverse with
  | none =>
    have := splitFirst_eq_none hf
    simpa using this
  | some p => rw [hf] at h; simp at h

theorem splitLast_eq_some {c : Char} {l a b : List Char}
    (h : splitLast c l = some (a, b)) : l = a ++ c :: b ∧ c ∉ b := by
  unfold splitLast at h
  cases hf : splitFirst c l.reverse with
  | none => rw [hf] at h; simp at h
  | some p =>
    obtain ⟨ra, rb⟩ := p
    rw [hf] at h
    simp only [Option.some.injEq, Prod.mk.injEq] at h
    obtain ⟨rfl, rfl⟩ := h
    obtain ⟨hl, hc⟩ := splitFirst_eq_some hf
    constructor
    · have h2 := congrArg List.reverse hl
      simpa [List.reverse_append] using h2
    · simpa using hc

/-! ## Claim theorems -/

/-- Claim C1: for every shard URL and cache state, a failing
`fetch_app_ids_task` leaves no file at the shard's target path (and
touches no other file), while a successful one leaves exactly the one
persisted record (the newline-joined ids) and touches no other file. -/
theorem fetch_task_all_or_nothing (env : NetEnv) (url : String)
    (cache : Cache) :
    ((fetch_app_ids_task env url cache).1 = false →
      alookup (fetch_app_ids_task env url cache).2
        (get_url_file_name url ++ ".txt") = none ∧
      ∀ n, n ≠ get_url_file_name url ++ ".txt" →
        alookup (fetch_app_ids_task env url cache).2 n = alookup cache n) ∧
    ((fetch_app_ids_task env url cache).1 = true →
      (∃ ids : List String,
        alookup (fetch_app_ids_task env url cache).2
          (get_url_file_name url ++ ".txt") =
          some (String.join (ids.map (fun i => i ++ "\n")))) ∧
      ∀ n, n ≠ get_url_file_name url ++ ".txt" →
        alookup (fetch_app_ids_task env url cache).2 n = alookup cache n) := by
  constructor
  · intro h
    rw [fetch_task_false_eq env url cache h]
    exact ⟨alookup_removeFile_self _ _,
      fun n hn => alookup_removeFile_other _ _ _ hn⟩
  · intro h
    obtain ⟨ids, -, -, heq⟩ := fetch_task_true_eq env url cache h
    rw [heq]
    exact ⟨⟨ids, alookup_writeFile_self _ _ _⟩,
      fun n hn => alookup_writeFile_other _ _ _ _ hn⟩

def envC1 : NetEnv where
  urlopenRead := fun _ => none
  gzipDecompress := fun r => some r
  etreeFromstring := fun _ => none
  setElems := fun l => l
  persistOk := fun _ => true

/-- Witness for C1: a concrete network failure removes the pre-existing
target file and leaves the unrelated file alone. -/
theorem fetch_task_all_or_nothing_witness :
    alookup (fetch_app_ids_task envC1 "https://h/s.xml.gz"
      [("s.xml.gz.txt", "old"), ("other.txt", "o")]).2 "s.xml.gz.txt" = none ∧
    alookup (fetch_app_ids_task envC1 "https://h/s.xml.gz"
      [("s.xml.gz.txt", "old"), ("other.txt", "o")]).2 "other.txt" = some "o" := by
  have h := (fetch_task_all_or_nothing envC1 "https://h/s.xml.gz"
    [("s.xml.gz.txt", "old"), ("other.txt", "o")]).1 (by decide)
  have e : get_url_file_name "https://h/s.xml.gz" ++ ".txt" = "s.xml.gz.txt" := by decide
  refine ⟨?_, ?_⟩
  · have h1 := h.1
    rw [e] at h1
    exact h1
  · have h2 := h.2 "other.txt" (by rw [e]; decide)
    rw [h2]
    decide

/-- Claim C9: every pending shard is attempted (one outcome per dispatched
URL, no early abort), and the success and failure counts add up to the
size of the dispatched pending set. -/
theorem run_counts (env : NetEnv) (urls : List String) (cache : Cache)
    (output : Option String) :
    (run_fetch_app_ids_tasks env urls cache).2.count true +
      (run_fetch_app_ids_tasks env urls cache).2.count false = urls.length ∧
    (run_fetch_app_ids_tasks env urls cache).2.length = urls.length ∧
    (fetch_app_ids env urls cache output).results.length =
      (fetch_app_ids env urls cache output).dispatched.length ∧
    (fetch_app_ids env urls cache output).dispatched.length =
      (pendingURLs urls cache).length := by
  refine ⟨?_, run_length env urls cache, ?_, ?_⟩
  · rw [count_true_add_count_false]
    exact run_length env urls cache
  · simp only [fetch_app_ids]
    by_cases h : (pendingURLs urls cache).length > 0
    · simp [h, run_length]
    · simp [h]
  · simp only [fetch_app_ids]
    by_cases h : (pendingURLs urls cache).length > 0
    · simp [h, (sortStrings_perm _).length_eq]
    · simp [h]
      omega

/-- Claim C8: when the output file already exists, the merge step returns
it untouched, reads nothing from the cache (the result does not depend on
the cache contents at all), and a whole pipeline run leaves the existing
output unchanged. -/
theorem merge_skip_existing (env : NetEnv) (urls : List String)
    (cache cache2 : Cache) (s : String) :
    mergeOutput cache (some s) = some s ∧
    mergeOutput cache (some s) = mergeOutput cache2 (some s) ∧
    (fetch_app_ids env urls cache (some s)).output = some s := by
  refine ⟨rfl, rfl, ?_⟩
  simp [fetch_app_ids, mergeOutput]

/-- Counterexample for C7: the claim says the resolver fails (signals
`InvalidShardURL`) exactly when the URL has no path segment; the source's
`get_url_file_name` has no failure path at all — on a URL with no path
segment it returns the empty string as an ordinary value. -/
theorem resolver_no_failure_cex :
    get_url_file_name "https://play.google.com" = "" ∧
    (urlparse "https://play.google.com").path = [] := by
  exact ⟨by decide, by decide⟩

/-- Amended C7: `get_url_file_name` is a pure total function returning the
final path segment of the URL — the slash-free suffix of the parsed path
(in particular the empty string when the path is empty or ends in a
slash); it never fails. -/
theorem resolver_final_segment (url : String) :
    (∀ ch ∈ (get_url_file_name url).data, ch ≠ '/') ∧
    ∃ pre, (urlparse url).path = pre ++ (get_url_file_name url).data ∧
      (pre = [] ∨ ∃ q, pre = q ++ ['/']) := by
  have hdata : (get_url_file_name url).data = osBasename (urlparse url).path := by
    simp [get_url_file_name]
  rw [hdata]
  cases hs : splitLast '/' (urlparse url).path with
  | none =>
    have hnot := splitLast_eq_none hs
    constructor
    · intro ch hch he
      subst he
      exact hnot (by simpa [osBasename, hs] using hch)
    · exact ⟨[], by simp [osBasename, hs]⟩
  | some p =>
    obtain ⟨before, after⟩ := p
    obtain ⟨hl, hc⟩ := splitLast_eq_some hs
    constructor
    · intro ch hch he
      subst he
      exact hc (by simpa [osBasename, hs] using hch)
    · refine ⟨before ++ ['/'], ?_, Or.inr ⟨before, rfl⟩⟩
      have hbase : osBasename (urlparse url).path = after := by
        simp [osBasename, hs]
      rw [hbase, hl]
      simp

/-- Witness for C7's amended claim at a concrete URL. -/
theorem resolver_final_segment_witness :
    (∀ ch ∈ (get_url_file_name "https://a/b/c.xml.gz").data, ch ≠ '/') ∧
    ∃ pre, (urlparse "https://a/b/c.xml.gz").path =
        pre ++ (get_url_file_name "https://a/b/c.xml.gz").data ∧
      (pre = [] ∨ ∃ q, pre = q ++ ['/']) :=
  resolver_final_segment "https://a/b/c.xml.gz"

/-- Claim C10: a cache entry whose name starts with a dot or does not end
in `.txt` is invisible to both the resume check (`recordNames`, hence
`pendingURLs`) and the aggregator (`concat_all_app_ids`). -/
theorem ignore_non_records (c1 c2 : Cache) (nm content : String)
    (h : recordPred nm = false) :
    recordNames (c1 ++ (nm, content) :: c2) = recordNames (c1 ++ c2) ∧
    concat_all_app_ids (c1 ++ (nm, content) :: c2) =
      concat_all_app_ids (c1 ++ c2) ∧
    ∀ urls, pendingURLs urls (c1 ++ (nm, content) :: c2) =
      pendingURLs urls (c1 ++ c2) := by
  have hkeys : (((c1 ++ (nm, content) :: c2).map Prod.fst).filter recordPred) =
      (((c1 ++ c2).map Prod.fst).filter recordPred) := by
    simp [List.filter_append, List.filter_cons, h]
  have hnames : recordNames (c1 ++ (nm, content) :: c2) =
      recordNames (c1 ++ c2) := by
    simp only [recordNames, hkeys]
  refine ⟨hnames, ?_, fun urls => by simp only [pendingURLs, hnames]⟩
  simp only [concat_all_app_ids, hkeys]
  congr 1
  apply List.map_congr_left
  intro f hf
  have hf2 : f ∈ ((c1 ++ c2).map Prod.fst).filter recordPred :=
    (sortStrings_perm _).mem_iff.mp hf
  have hpred : recordPred f = true := (List.mem_filter.mp hf2).2
  have hne : f ≠ nm := by
    intro he
    rw [he, h] at hpred
    cases hpred
  rw [alookup_append_middle c1 c2 nm content f hne]

/-- Witness for C10: a hidden `.txt` file is ignored by the resume scan
and by the aggregator. -/
theorem ignore_non_records_witness :
    recordNames ([("a.txt", "A")] ++ (".hidden.txt", "H") :: [("b.log", "L")]) =
      recordNames ([("a.txt", "A")] ++ [("b.log", "L")]) ∧
    concat_all_app_ids ([("a.txt", "A")] ++ (".hidden.txt", "H") :: [("b.log", "L")]) =
      concat_all_app_ids ([("a.txt", "A")] ++ [("b.log", "L")]) ∧
    ∀ urls, pendingURLs urls ([("a.txt", "A")] ++ (".hidden.txt", "H") :: [("b.log", "L")]) =
      pendingURLs urls ([("a.txt", "A")] ++ [("b.log", "L")]) :=
  ignore_non_records [("a.txt", "A")] [("b.log", "L")] ".hidden.txt" "H" (by decide)

/-- Function `List.dedup` is one legitimate embedding of CPython set enumeration. -/
theorem setElemsOK_dedup : SetElemsOK (fun l : List String => l.dedup) := by
  intro l
  exact ⟨List.nodup_dedup l, fun x => List.mem_dedup⟩

/-- Claim C6: if the download, decompression and parse succeed but some
hyperlink with the store prefix has no `id` query parameter, the whole
task fails and no record file is left for that shard. -/
theorem malformed_entry_fails (env : NetEnv) (url : String) (cache : Cache)
    (raw content : List Nat) (t : XElem) (link : String)
    (hse : SetElemsOK env.setElems)
    (hu : env.urlopenRead url = some raw)
    (hg : env.gzipDecompress raw = some content)
    (hx : env.etreeFromstring content = some t)
    (hmem : link ∈ treeHrefs t)
    (hpre : pyStartsWith link "https://play.google.com/store/apps" = true)
    (hid : extract_app_id link = none) :
    (fetch_app_ids_task env url cache).1 = false ∧
    alookup (fetch_app_ids_task env url cache).2
      (get_url_file_name url ++ ".txt") = none := by
  have hmem2 : link ∈ env.setElems (treeHrefs t) :=
    ((hse (treeHrefs t)).2 link).mpr hmem
  have hnone : extractAll (env.setElems (treeHrefs t)) = none :=
    extractAll_eq_none_of_mem hmem2 hpre hid
  have hatt : taskAttempt env url = none := by
    simp [taskAttempt, hu, hg, hx, hnone]
  constructor
  · simp [fetch_app_ids_task, hatt]
  · simp [fetch_app_ids_task, hatt, alookup_removeFile_self]

def treeC6 : XElem :=
  XElem.node []
    [XElem.node [("href", "https://play.google.com/store/apps/details?id=ok")] [],
     XElem.node [("href", "https://play.google.com/store/apps/details?foo=1")] []]

def envC6 : NetEnv where
  urlopenRead := fun _ => some [0]
  gzipDecompress := fun r => some r
  etreeFromstring := fun _ => some treeC6
  setElems := fun l => l.dedup
  persistOk := fun _ => true

/-- Witness for C6: a shard with one valid and one `id`-less store link
fails as a whole and persists nothing. -/
theorem malformed_entry_fails_witness :
    (fetch_app_ids_task envC6 "https://h/s6.xml.gz" []).1 = false ∧
    alookup (fetch_app_ids_task envC6 "https://h/s6.xml.gz" []).2
      (get_url_file_name "https://h/s6.xml.gz" ++ ".txt") = none :=
  malformed_entry_fails envC6 "https://h/s6.xml.gz" [] [0] [0] treeC6
    "https://play.google.com/store/apps/details?foo=1"
    setElemsOK_dedup rfl rfl rfl (by decide) (by decide) (by decide)

/-- Claim C3: the merged output is the concatenation of the record files'
contents in ascending lexicographic filename order, and it depends only on
the cache contents, not on the enumeration order of the directory (two
caches that are permutations of one another produce byte-identical
output). -/
theorem concat_deterministic (c1 c2 : Cache) (hperm : c1.Perm c2)
    (hnd : (c1.map Prod.fst).Nodup) :
    concat_all_app_ids c1 = concat_all_app_ids c2 ∧
    ∃ l : List String, l.Sorted (fun a b => strLeB a b = true) ∧
      l.Perm ((c1.map Prod.fst).filter recordPred) ∧
      concat_all_app_ids c1 =
        String.join (l.map (fun f => (alookup c1 f).getD "")) := by
  have hkeys : sortStrings ((c1.map Prod.fst).filter recordPred) =
      sortStrings ((c2.map Prod.fst).filter recordPred) :=
    sortStrings_eq_of_perm ((hperm.map Prod.fst).filter recordPred)
  constructor
  · simp only [concat_all_app_ids]
    rw [hkeys]
    exact congrArg String.join
      (List.map_congr_left (fun f _ => by rw [alookup_perm hperm hnd f]))
  · exact ⟨sortStrings ((c1.map Prod.fst).filter recordPred),
      sortStrings_sorted _, sortStrings_perm _, rfl⟩

/-- Witness for C3 on a concrete two-record cache and a reordering. -/
theorem concat_deterministic_witness :
    concat_all_app_ids [("b.txt", "B\n"), ("a.txt", "A\n")] =
      concat_all_app_ids [("a.txt", "A\n"), ("b.txt", "B\n")] ∧
    ∃ l : List String, l.Sorted (fun a b => strLeB a b = true) ∧
      l.Perm (([("b.txt", "B\n"), ("a.txt", "A\n")].map Prod.fst).filter recordPred) ∧
      concat_all_app_ids [("b.txt", "B\n"), ("a.txt", "A\n")] =
        String.join (l.map (fun f =>
          (alookup [("b.txt", "B\n"), ("a.txt", "A\n")] f).getD "")) :=
  concat_deterministic [("b.txt", "B\n"), ("a.txt", "A\n")]
    [("a.txt", "A\n"), ("b.txt", "B\n")] (by decide) (by decide)

/-! ## Helper lemmas: String.join -/

theorem string_join_cons (s : String) (l : List String) :
    String.join (s :: l) = s ++ String.join l := by
  have haux : ∀ (l : List String) (a : String),
      List.foldl (fun r t => r ++ t) a l =
        a ++ List.foldl (fun r t => r ++ t) "" l := by
    intro l
    induction l with
    | nil => intro a; simp
    | cons x xs ih =>
      intro a
      simp only [List.foldl_cons]
      rw [ih (a ++ x), ih ("" ++ x)]
      simp [String.append_assoc]
  simp only [String.join, List.foldl_cons]
  rw [haux l ("" ++ s)]
  simp

theorem string_join_append (l₁ l₂ : List String) :
    String.join (l₁ ++ l₂) = String.join l₁ ++ String.join l₂ := by
  induction l₁ with
  | nil => simp [String.join]
  | cons s t ih =>
    simp only [List.cons_append, string_join_cons, ih, String.append_assoc]

/-! ## Claim C4 (merge failure atomicity) -/

/-- Counterexample for C4: the source writes the merged data directly to
`app_ids_path` (no temporary file, no rename), so an I/O failure after the
first of two record files leaves the output file present with truncated
content, and the existence guard of line 99 then treats it as complete. -/
theorem merge_truncation_cex :
    concatTruncated [("b.txt", "B\n"), ("a.txt", "A\n")] 1 = "A\n" ∧
    concat_all_app_ids [("b.txt", "B\n"), ("a.txt", "A\n")] = "A\nB\n" ∧
    mergeOutput [("b.txt", "B\n"), ("a.txt", "A\n")]
      (some (concatTruncated [("b.txt", "B\n"), ("a.txt", "A\n")] 1)) =
      some "A\n" ∧
    ("A\n" : String) ≠ "A\nB\n" := by
  refine ⟨by decide, by decide, by decide, by decide⟩

/-- Amended C4: the merge writes incrementally and directly to the output
path; a failure after `k` record files leaves the output present holding
exactly the first `k` sorted records (a prefix of the full merge, the full
merge being the case `k` = number of records), and a later run's existence
guard accepts that truncated file as-is instead of retrying. -/
theorem merge_truncation_amended (cache : Cache) (k : Nat) :
    mergeOutput cache (some (concatTruncated cache k)) =
      some (concatTruncated cache k) ∧
    concatTruncated cache ((cache.map Prod.fst).filter recordPred).length =
      concat_all_app_ids cache ∧
    ∃ rest, concat_all_app_ids cache = concatTruncated cache k ++ rest := by
  refine ⟨rfl, ?_, ?_⟩
  · simp only [concatTruncated, concat_all_app_ids]
    rw [← (sortStrings_perm ((cache.map Prod.fst).filter recordPred)).length_eq]
    rw [List.take_length]
  · refine ⟨String.join
      (((sortStrings ((cache.map Prod.fst).filter recordPred)).drop k).map
        (fun f => (alookup cache f).getD "")), ?_⟩
    simp only [concatTruncated, concat_all_app_ids]
    rw [← string_join_append, ← List.map_append, List.take_append_drop]

/-! ## Claim C5 (record order vs extraction order) -/

def treeC5 : XElem :=
  XElem.node []
    [XElem.node [("href", "https://play.google.com/store/apps/details?id=x")] [],
     XElem.node [("href", "https://play.google.com/store/apps/details?id=x")] []]

def envC5 : NetEnv where
  urlopenRead := fun _ => some [0]
  gzipDecompress := fun r => some r
  etreeFromstring := fun _ => some treeC5
  setElems := fun l => l.dedup
  persistOk := fun _ => true

/-- Counterexample for C5: a shard whose XML contains the same store
hyperlink twice.  Extraction in document order yields the identifier
twice, but line 39's `set(...)` collapses the two hyperlinks, so the
persisted record holds a single line — the record is not the extracted
sequence in extraction order (here not even of the same length), for any
iteration order the set might use. -/
theorem record_order_cex :
    (fetch_app_ids_task envC5 "https://h/s5.xml.gz" []).1 = true ∧
    alookup (fetch_app_ids_task envC5 "https://h/s5.xml.gz" []).2
      "s5.xml.gz.txt" = some "x\n" ∧
    extractionOrderIds treeC5 = ["x", "x"] ∧
    some (String.join ((extractionOrderIds treeC5).map (fun i => i ++ "\n"))) ≠
      alookup (fetch_app_ids_task envC5 "https://h/s5.xml.gz" []).2
        "s5.xml.gz.txt" := by
  refine ⟨by decide, by decide, by decide, by decide⟩

/-- Amended C5: on success the persisted record is one identifier per
line, one line per distinct store hyperlink (line 39's set removes
duplicate hrefs), in the set's enumeration order of the hyperlinks — not
in extraction (document) order. -/
theorem record_set_order (env : NetEnv) (url : String) (cache : Cache)
    (raw content : List Nat) (t : XElem) (ids : List String)
    (hse : SetElemsOK env.setElems)
    (hu : env.urlopenRead url = some raw)
    (hg : env.gzipDecompress raw = some content)
    (hx : env.etreeFromstring content = some t)
    (hids : extractAll (env.setElems (treeHrefs t)) = some ids)
    (hp : env.persistOk url = true) :
    (fetch_app_ids_task env url cache).1 = true ∧
    alookup (fetch_app_ids_task env url cache).2
      (get_url_file_name url ++ ".txt") =
      some (String.join (ids.map (fun i => i ++ "\n"))) ∧
    (env.setElems (treeHrefs t)).Nodup ∧
    (∀ x, x ∈ env.setElems (treeHrefs t) ↔ x ∈ treeHrefs t) := by
  have hatt : taskAttempt env url = some ids := by
    simp [taskAttempt, hu, hg, hx, hids]
  refine ⟨?_, ?_, (hse (treeHrefs t)).1, (hse (treeHrefs t)).2⟩
  · simp [fetch_app_ids_task, hatt, hp]
  · simp [fetch_app_ids_task, hatt, hp, alookup_writeFile_self]

/-- Witness for C5's amended claim on the duplicate-hyperlink shard. -/
theorem record_set_order_witness :
    (fetch_app_ids_task envC5 "https://h/s5.xml.gz" []).1 = true ∧
    alookup (fetch_app_ids_task envC5 "https://h/s5.xml.gz" []).2
      (get_url_file_name "https://h/s5.xml.gz" ++ ".txt") =
      some (String.join (["x"].map (fun i => i ++ "\n"))) ∧
    (envC5.setElems (treeHrefs treeC5)).Nodup ∧
    (∀ x, x ∈ envC5.setElems (treeHrefs treeC5) ↔ x ∈ treeHrefs treeC5) :=
  record_set_order envC5 "https://h/s5.xml.gz" [] [0] [0] treeC5 ["x"]
    setElemsOK_dedup rfl rfl rfl (by decide) rfl

/-! ## Claim C2 (resume skip and idempotence) -/

theorem mem_recordNames_iff {cache : Cache} {k : String} :
    k ∈ recordNames cache ↔
      ∃ f, f ∈ cache.map Prod.fst ∧ recordPred f = true ∧
        pyDropRight f 4 = k := by
  simp only [recordNames, List.mem_map, List.mem_filter]
  constructor
  · rintro ⟨f, ⟨hf, hp⟩, hs⟩
    exact ⟨f, hf, hp, hs⟩
  · rintro ⟨f, hf, hp, hs⟩
    exact ⟨f, ⟨hf, hp⟩, hs⟩

theorem key_mem_recordNames {cache : Cache} {u : String}
    (hdot : pyStartsWith (get_url_file_name u ++ ".txt") "." = false)
    (hrec : (alookup cache (get_url_file_name u ++ ".txt")).isSome) :
    get_url_file_name u ∈ recordNames cache := by
  refine mem_recordNames_iff.mpr ⟨get_url_file_name u ++ ".txt",
    (alookup_isSome_iff _ _).mp hrec, ?_, pyDropRight_append_txt _⟩
  simp [recordPred, hdot, pyEndsWith_append_txt]

theorem not_pending_of_mem_recordNames {urls : List String} {cache : Cache}
    {u : String} (hmem : get_url_file_name u ∈ recordNames cache) :
    u ∉ pendingURLs urls cache := by
  intro hu
  have hkeep := (List.mem_filter.mp hu).2
  simp [List.contains, List.elem_eq_mem] at hkeep
  exact hkeep hmem

theorem mem_recordNames_of_not_pending {urls : List String} {cache : Cache}
    {u : String} (hu : u ∈ urls) (hnp : u ∉ pendingURLs urls cache) :
    get_url_file_name u ∈ recordNames cache := by
  by_contra hmem
  apply hnp
  refine List.mem_filter.mpr ⟨hu, ?_⟩
  simp [List.contains, List.elem_eq_mem, hmem]

theorem recordNames_preserved (env : NetEnv) (urls : List String)
    (cache : Cache) {k : String}
    (h2 : ∀ b ∈ (run_fetch_app_ids_tasks env urls cache).2, b = true)
    (hk : k ∈ recordNames cache) :
    k ∈ recordNames (run_fetch_app_ids_tasks env urls cache).1 := by
  obtain ⟨f, hf, hpred, hstrip⟩ := mem_recordNames_iff.mp hk
  have h1 : (alookup cache f).isSome := (alookup_isSome_iff _ _).mpr hf
  have h3 := run_preserves_isSome env urls cache f h2 h1
  exact mem_recordNames_iff.mpr
    ⟨f, (alookup_isSome_iff _ _).mp h3, hpred, hstrip⟩

def envC2 : NetEnv where
  urlopenRead := fun _ => none
  gzipDecompress := fun r => some r
  etreeFromstring := fun _ => none
  setElems := fun l => l
  persistOk := fun _ => true

/-- Counterexample for C2, refuting both halves of the claim as stated.
First half: a URL whose shard key starts with a dot.  Its record file
`.h.txt` is present in the cache, yet line 92's scan skips dot-files, so
the URL is not excluded and is dispatched again.  Second half: a shard
whose fetch fails (here: network error) is still pending after the first
run, so a second run with the same inputs and unchanged data dispatches
it again — one dispatched unit, not zero. -/
theorem pending_exclusion_cex :
    (alookup [(".h.txt", "x")]
      (get_url_file_name "https://example.com/.h" ++ ".txt") = some "x" ∧
     pendingURLs ["https://example.com/.h"] [(".h.txt", "x")] =
       ["https://example.com/.h"] ∧
     (fetch_app_ids envC2 ["https://example.com/.h"] [(".h.txt", "x")]
       none).dispatched = ["https://example.com/.h"]) ∧
    ((fetch_app_ids envC2 ["https://example.com/s1.xml.gz"] [] none).results =
       [false] ∧
     (fetch_app_ids envC2 ["https://example.com/s1.xml.gz"]
       (fetch_app_ids envC2 ["https://example.com/s1.xml.gz"] [] none).cache
       (fetch_app_ids envC2 ["https://example.com/s1.xml.gz"] [] none).output
       ).dispatched = ["https://example.com/s1.xml.gz"]) := by
  refine ⟨⟨by decide, by decide, by decide⟩, by decide, by decide⟩

/-- Amended C2.  First conjunct (unconditional, per URL, holds whatever
the task outcomes of the run are, since lines 92-93 prune before any task
runs): a URL whose record filename does not begin with a dot (the resume
scan ignores dot-files) and whose record is already in the cache is
excluded from the dispatched batch.  Second conjunct: if every record
filename of the URL set is dot-free and every task of the first run
succeeds, a second run over the same URL set dispatches zero units. -/
theorem pending_exclusion_amended (env : NetEnv) (urls : List String)
    (cache : Cache) (output : Option String) :
    (∀ u ∈ urls, pyStartsWith (get_url_file_name u ++ ".txt") "." = false →
      (alookup cache (get_url_file_name u ++ ".txt")).isSome →
      u ∉ (fetch_app_ids env urls cache output).dispatched) ∧
    ((∀ u ∈ urls, pyStartsWith (get_url_file_name u ++ ".txt") "." = false) →
      (∀ b ∈ (fetch_app_ids env urls cache output).results, b = true) →
      (fetch_app_ids env urls
        (fetch_app_ids env urls cache output).cache
        (fetch_app_ids env urls cache output).output).dispatched = []) := by
  constructor
  · intro u hu hdot hrec
    by_cases hp : (pendingURLs urls cache).length > 0
    · have hd : (fetch_app_ids env urls cache output).dispatched =
          sortStrings (pendingURLs urls cache) := by
        simp [fetch_app_ids, hp]
      rw [hd]
      intro hmem
      exact not_pending_of_mem_recordNames
        (key_mem_recordNames hdot hrec)
        ((sortStrings_perm _).mem_iff.mp hmem)
    · simp [fetch_app_ids, hp]
  · intro h1 h2
    by_cases hp : (pendingURLs urls cache).length > 0
    · have hres : (fetch_app_ids env urls cache output).results =
          (run_fetch_app_ids_tasks env
            (sortStrings (pendingURLs urls cache)) cache).2 := by
        simp [fetch_app_ids, hp]
      have hall : ∀ b ∈ (run_fetch_app_ids_tasks env
          (sortStrings (pendingURLs urls cache)) cache).2, b = true :=
        fun b hb => h2 b (hres ▸ hb)
      have hc : (fetch_app_ids env urls cache output).cache =
          (run_fetch_app_ids_tasks env
            (sortStrings (pendingURLs urls cache)) cache).1 := by
        simp [fetch_app_ids, hp]
      have hkey : ∀ u ∈ urls, get_url_file_name u ∈
          recordNames (fetch_app_ids env urls cache output).cache := by
        intro u hu
        rw [hc]
        by_cases hmem : u ∈ pendingURLs urls cache
        · have hums : u ∈ sortStrings (pendingURLs urls cache) :=
            (sortStrings_perm _).mem_iff.mpr hmem
          have hs := run_writes_all env _ cache hall u hums
          exact key_mem_recordNames (h1 u hu) hs
        · exact recordNames_preserved env _ cache hall
            (mem_recordNames_of_not_pending hu hmem)
      have hpend2 : pendingURLs urls
          (fetch_app_ids env urls cache output).cache = [] := by
        simp only [pendingURLs]
        rw [List.filter_eq_nil_iff]
        intro u hu
        have hk := hkey u hu
        simp [List.contains, List.elem_eq_mem, hk]
      have hfix := hpend2
      simp only [fetch_app_ids] at hfix
      simp [fetch_app_ids, hfix]
    · have hc : (fetch_app_ids env urls cache output).cache = cache := by
        simp [fetch_app_ids, hp]
      rw [hc]
      simp [fetch_app_ids, hp]

def envC2w : NetEnv where
  urlopenRead := fun _ => some []
  gzipDecompress := fun r => some r
  etreeFromstring := fun _ => some (XElem.node [] [])
  setElems := fun l => l
  persistOk := fun _ => true

/-- Witness for C2's amended claim.  Exclusion conjunct: two URLs, the
first already recorded as `a.txt`, under the all-failing environment — the
recorded URL stays excluded even though the other task of the run fails.
Zero-redispatch conjunct: the same inputs under the all-succeeding
environment — after the first run completes `b.txt`, the second run
dispatches nothing. -/
theorem pending_exclusion_amended_witness :
    "https://h/a" ∉ (fetch_app_ids envC2 ["https://h/a", "https://h/b"]
      [("a.txt", "X\n")] none).dispatched ∧
    (fetch_app_ids envC2w ["https://h/a", "https://h/b"]
      (fetch_app_ids envC2w ["https://h/a", "https://h/b"]
        [("a.txt", "X\n")] none).cache
      (fetch_app_ids envC2w ["https://h/a", "https://h/b"]
        [("a.txt", "X\n")] none).output).dispatched = [] :=
  ⟨(pending_exclusion_amended envC2 ["https://h/a", "https://h/b"]
      [("a.txt", "X\n")] none).1 "https://h/a" (by decide) (by decide) (by decide),
   (pending_exclusion_amended envC2w ["https://h/a", "https://h/b"]
      [("a.txt", "X\n")] none).2 (by decide) (by decide)⟩
